import Mathlib

/-!
Verification of the infix-to-postfix converter and evaluator of the
`infix-postfix` repository (src/exprparse.rs and the duplicated
`in_to_pos` module of src/main.rs).

Modelling conventions:
* Rust `f64` numeric payloads are modelled as `ℚ`.  Every numeral the
  lexer produces is a finite decimal, parsed here exactly; all claims
  under study only exercise values and operations (small-integer `+`,
  `-`, `*`, `/`, integer-exponent `powf`) on which `f64` arithmetic is
  exact, so the idealisation decides the same claims.  `f64::powf` is
  modelled by `qpow`, exact for the integer-valued exponents the claims
  use; division by zero (IEEE `inf`/`NaN`) and non-integer exponents
  are outside every claim.
* The Rust regex `\-?\d+(\.\d+)?|[\+\-\*/\^\(\)]` is scanned with the
  regex crate's leftmost-first semantics: at each position a numeral
  (optional minus glued to digits, optional fraction) is preferred to a
  single operator character; unmatched characters are the "gap" text
  that `re.split` yields between matches.  `\d` is modelled as the
  ASCII digits: an input holding a non-ASCII Unicode digit makes both
  the code (its `f64`/token parse fails) and this model (the character
  is a non-whitespace gap) return `ParseError`, so no claim is decided
  differently.
* Rust `char::is_whitespace` / `str::trim` use the Unicode White_Space
  set, listed exhaustively in `isRustWS`.
-/

/-- The token model of `enum Tokens` in src/exprparse.rs (the `in_to_pos`
module of src/main.rs declares a textually identical enum). -/
inductive Tokens where
  | Add
  | Sub
  | Mul
  | Div
  | Exp
  | OpP
  | ClP
  | Num (v : ℚ)
deriving DecidableEq, Repr

/-- The error model of `enum PostfixError` (identical in both files). -/
inductive PostfixError where
  | ParseError
  | EmptyString
deriving DecidableEq, Repr

/-- Equality of `Result` values is decidable, so concrete runs of the
embedded functions can be checked by evaluation. -/
instance exceptDecEq {ε α : Type} [DecidableEq ε] [DecidableEq α] :
    DecidableEq (Except ε α) := fun a b =>
  match a, b with
  | .error x, .error y => decidable_of_iff (x = y) (by simp)
  | .error _, .ok _ => .isFalse (by simp)
  | .ok _, .error _ => .isFalse (by simp)
  | .ok x, .ok y => decidable_of_iff (x = y) (by simp)

/-- `Tokens::prio` of src/exprparse.rs lines 56-65: operator precedence,
with parentheses and numbers ranked 0. -/
def Tokens.prio : Tokens → Nat
  | .Add => 1
  | .Sub => 1
  | .Mul => 2
  | .Div => 2
  | .Exp => 3
  | _ => 0

/-- Whether a token is a `Num`. -/
def Tokens.isNum : Tokens → Bool
  | .Num _ => true
  | _ => false

/-- Rust `char::is_whitespace`: the Unicode White_Space code points. -/
def isRustWS (c : Char) : Bool :=
  [0x09, 0x0A, 0x0B, 0x0C, 0x0D, 0x20, 0x85, 0xA0, 0x1680,
   0x2000, 0x2001, 0x2002, 0x2003, 0x2004, 0x2005, 0x2006, 0x2007,
   0x2008, 0x2009, 0x200A, 0x2028, 0x2029, 0x202F, 0x205F,
   0x3000].contains c.toNat

/-- Rust `str::trim`: drop Unicode whitespace from both ends. -/
def rustTrim (l : List Char) : List Char :=
  ((l.dropWhile isRustWS).reverse.dropWhile isRustWS).reverse

/-- The numeric value of a list of ASCII digits. -/
def digitsVal (ds : List Char) : Nat :=
  ds.foldl (fun acc c => 10 * acc + (c.toNat - 48)) 0

/-- The exact rational value of a matched numeral: sign, integer part,
fractional part (the Rust code parses the matched text with
`str::parse::<f64>`, which rounds this value to the nearest `f64`). -/
def numLit (neg : Bool) (ip fp : List Char) : ℚ :=
  let m : ℚ := (digitsVal ip : ℚ) + (digitsVal fp : ℚ) / ((10 : ℚ) ^ fp.length)
  if neg then -m else m

/-- The first branch `\-?\d+(\.\d+)?` of the lexing regex, tried at the
head of `l`: an optional minus sign immediately followed by one or more
digits, then optionally a point and one or more digits, matched
greedily.  Returns the numeral's value and the unconsumed remainder. -/
def matchNum (l : List Char) : Option (ℚ × List Char) :=
  let neg : Bool := match l with | '-' :: _ => true | _ => false
  let l1 : List Char := match l with | '-' :: t => t | _ => l
  let ip := l1.takeWhile Char.isDigit
  let l2 := l1.dropWhile Char.isDigit
  if ip.isEmpty then none
  else
    match l2 with
    | '.' :: t =>
      let fp := t.takeWhile Char.isDigit
      if fp.isEmpty then some (numLit neg ip [], l2)
      else some (numLit neg ip fp, t.dropWhile Char.isDigit)
    | _ => some (numLit neg ip [], l2)

/-- The second branch `[\+\-\*/\^\(\)]` of the lexing regex. -/
def isOpChar (c : Char) : Bool :=
  ['+', '-', '*', '/', '^', '(', ')'].contains c

/-- One item of the scanned input: a regex match (a numeral or a single
operator character) or a "gap" character that no match covers (the text
`re.split` yields between matches). -/
inductive Lexed where
  | num (v : ℚ)
  | sym (c : Char)
  | gap (c : Char)
deriving DecidableEq, Repr

/-- Whether an item is gap text. -/
def Lexed.isGap : Lexed → Bool
  | .gap _ => true
  | _ => false

/-- The scan of `re.find_iter` together with the gap text, fuelled by
the input length (each step consumes at least one character, so the
fuel never runs out on `lex`'s call).  Leftmost-first: at each position
the numeral branch is preferred to the operator-character branch. -/
def lexF : Nat → List Char → List Lexed
  | 0, _ => []
  | _, [] => []
  | fuel + 1, c :: rest =>
    match matchNum (c :: rest) with
    | some (v, r) => .num v :: lexF fuel r
    | none =>
      if isOpChar c then .sym c :: lexF fuel rest
      else .gap c :: lexF fuel rest

/-- The full scan of an input: matches interleaved with gap characters. -/
def lex (l : List Char) : List Lexed :=
  lexF l.length l

/-- `re.split(infix).any(|s| ...)` of src/exprparse.rs lines 85-89: some
text between matches is not whitespace. -/
def hasBadGap (items : List Lexed) : Bool :=
  items.any (fun i => match i with | .gap c => !isRustWS c | _ => false)

/-- The match sequence `re.find_iter(infix)` iterates over: the scanned
items without the gap text. -/
def lexTokens (s : String) : List Lexed :=
  (lex s.toList).filter (fun i => !i.isGap)

/-- `Tokens::from_str` restricted to the single operator characters the
lexer's second branch yields (`str::parse::<f64>` never succeeds on
them, so the numeric branch of `from_str` is dead there). -/
def tokOfSym (c : Char) : Option Tokens :=
  if c = '+' then some .Add
  else if c = '-' then some .Sub
  else if c = '*' then some .Mul
  else if c = '/' then some .Div
  else if c = '^' then some .Exp
  else if c = '(' then some .OpP
  else if c = ')' then some .ClP
  else none

/-- The operator-scan pop loop of src/exprparse.rs lines 122-127: pop
stack tokens into the output while the scanned operator's priority is
not strictly greater than the top's.  Returns (emitted in pop order,
remaining stack); the stack's head is its top. -/
def popGE (op : Tokens) : List Tokens → List Tokens × List Tokens
  | [] => ([], [])
  | t :: rest =>
    if op.prio > t.prio then ([], t :: rest)
    else (t :: (popGE op rest).1, (popGE op rest).2)

/-- The close-parenthesis pop loop of src/exprparse.rs lines 108-118:
pop stack tokens into the output until an `OpP` is popped (discarded);
`none` when the stack is exhausted without one, which the caller turns
into `ParseError`. -/
def popUntilOpen : List Tokens → Option (List Tokens × List Tokens)
  | [] => none
  | Tokens.OpP :: rest => some ([], rest)
  | t :: rest => (popUntilOpen rest).map (fun pr => (t :: pr.1, pr.2))

/-- The `for token in re.find_iter(..)` loop of src/exprparse.rs lines
95-133 plus the final drain of lines 135-137: shunting-yard over the
match sequence, carrying the operator stack (head = top), the output so
far, and the `last_is_num` flag.  The final drain pushes every leftover
stack token — including an unmatched `OpP` — into the output.  (A
`gap` item never reaches this loop from `Postfix.from_infix`, which
filters the match sequence as `find_iter` does; the case is skipped.) -/
def convLoop : List Lexed → List Tokens → List Tokens → Bool →
    Except PostfixError (List Tokens)
  | [], stack, out, _ => .ok (out ++ stack)
  | .num v :: rest, stack, out, _ =>
    convLoop rest stack (out ++ [.Num v]) true
  | .sym c :: rest, stack, out, lastIsNum =>
    if c = '(' then
      convLoop rest (.OpP :: (if lastIsNum then .Mul :: stack else stack)) out false
    else if c = ')' then
      match popUntilOpen stack with
      | some pr => convLoop rest pr.2 (out ++ pr.1) false
      | none => .error .ParseError
    else
      match tokOfSym c with
      | some op => convLoop rest (op :: (popGE op stack).2) (out ++ (popGE op stack).1) false
      | none => .error .ParseError
  | .gap _ :: rest, stack, out, lastIsNum => convLoop rest stack out lastIsNum

/-- `Postfix::from_infix` of src/exprparse.rs lines 79-140: empty check,
gap (split) check, then the shunting-yard loop over the matches. -/
def Postfix.from_infix (s : String) : Except PostfixError (List Tokens) :=
  if (rustTrim s.toList).isEmpty then .error .EmptyString
  else if hasBadGap (lex s.toList) then .error .ParseError
  else convLoop (lexTokens s) [] [] false

/-- `f64::powf` on the exactly-representable inputs the claims use: for
an integer-valued exponent, the integer power (junk value 0 elsewhere;
no claim evaluates a non-integer exponent). -/
def qpow (a b : ℚ) : ℚ :=
  if b.den = 1 then a ^ b.num else 0

/-- The evaluation loop of `Postfix::evaluate` (src/exprparse.rs lines
142-164) over the remaining postfix sequence and the value stack (head
= top).  A non-`Num` token pops `val1` (rhs) then `val2` (lhs), erring
on underflow; the five operators push `val2 OP val1`; the structural
tokens `OpP`/`ClP` fall to the inner `_ => {}` arm and push nothing.
At the end the top of the stack is the result, error when empty. -/
def evalGo : List Tokens → List ℚ → Except PostfixError ℚ
  | [], stack =>
    match stack with
    | v :: _ => .ok v
    | [] => .error .ParseError
  | .Num v :: rest, stack => evalGo rest (v :: stack)
  | t :: rest, stack =>
    match stack with
    | v1 :: v2 :: st =>
      match t with
      | .Add => evalGo rest ((v2 + v1) :: st)
      | .Sub => evalGo rest ((v2 - v1) :: st)
      | .Mul => evalGo rest ((v2 * v1) :: st)
      | .Div => evalGo rest ((v2 / v1) :: st)
      | .Exp => evalGo rest (qpow v2 v1 :: st)
      | _ => evalGo rest st
    | _ => .error .ParseError

/-- `Postfix::evaluate` of src/exprparse.rs lines 142-164. -/
def Postfix.evaluate (p : List Tokens) : Except PostfixError ℚ :=
  evalGo p []

/-- The convert-then-evaluate pipeline
`Postfix::from_infix(expr).and_then(|p| p.evaluate())` that
`parse_expression` (src/exprparse.rs lines 168-173) prints; the spec's
entry point `parse_and_evaluate`. -/
def parse_and_evaluate (s : String) : Except PostfixError ℚ :=
  (Postfix.from_infix s).bind Postfix.evaluate

/-- The close-parenthesis pop loop of the duplicated converter in
src/main.rs lines 111-118 (`in_to_pos::Postfix::from_infix`): unlike
src/exprparse.rs it has no `found_open_paren` flag, so an exhausted
stack is not an error — the loop just drains the whole stack into the
output. -/
def in_to_pos.popDrain : List Tokens → List Tokens × List Tokens
  | [] => ([], [])
  | Tokens.OpP :: rest => ([], rest)
  | t :: rest => (t :: (in_to_pos.popDrain rest).1, (in_to_pos.popDrain rest).2)

/-- The scan loop of `in_to_pos::Postfix::from_infix` (src/main.rs lines
99-136): textually identical to src/exprparse.rs except the `)` case,
which never fails. -/
def in_to_pos.convLoop : List Lexed → List Tokens → List Tokens → Bool →
    Except PostfixError (List Tokens)
  | [], stack, out, _ => .ok (out ++ stack)
  | .num v :: rest, stack, out, _ =>
    in_to_pos.convLoop rest stack (out ++ [.Num v]) true
  | .sym c :: rest, stack, out, lastIsNum =>
    if c = '(' then
      in_to_pos.convLoop rest (.OpP :: (if lastIsNum then .Mul :: stack else stack)) out false
    else if c = ')' then
      in_to_pos.convLoop rest (in_to_pos.popDrain stack).2
        (out ++ (in_to_pos.popDrain stack).1) false
    else
      match tokOfSym c with
      | some op =>
        in_to_pos.convLoop rest (op :: (popGE op stack).2) (out ++ (popGE op stack).1) false
      | none => .error .ParseError
  | .gap _ :: rest, stack, out, lastIsNum => in_to_pos.convLoop rest stack out lastIsNum

/-- `in_to_pos::Postfix::from_infix` of src/main.rs lines 83-139. -/
def in_to_pos.Postfix.from_infix (s : String) : Except PostfixError (List Tokens) :=
  if (rustTrim s.toList).isEmpty then .error .EmptyString
  else if hasBadGap (lex s.toList) then .error .ParseError
  else in_to_pos.convLoop (lexTokens s) [] [] false

/-- The evaluation loop of `in_to_pos::Postfix::evaluate` (src/main.rs
lines 141-163), textually identical to the one of src/exprparse.rs. -/
def in_to_pos.evalGo : List Tokens → List ℚ → Except PostfixError ℚ
  | [], stack =>
    match stack with
    | v :: _ => .ok v
    | [] => .error .ParseError
  | .Num v :: rest, stack => in_to_pos.evalGo rest (v :: stack)
  | t :: rest, stack =>
    match stack with
    | v1 :: v2 :: st =>
      match t with
      | .Add => in_to_pos.evalGo rest ((v2 + v1) :: st)
      | .Sub => in_to_pos.evalGo rest ((v2 - v1) :: st)
      | .Mul => in_to_pos.evalGo rest ((v2 * v1) :: st)
      | .Div => in_to_pos.evalGo rest ((v2 / v1) :: st)
      | .Exp => in_to_pos.evalGo rest (qpow v2 v1 :: st)
      | _ => in_to_pos.evalGo rest st
    | _ => .error .ParseError

/-- `in_to_pos::Postfix::evaluate` of src/main.rs lines 141-163. -/
def in_to_pos.Postfix.evaluate (p : List Tokens) : Except PostfixError ℚ :=
  in_to_pos.evalGo p []

/-- The pipeline `in_to_pos::Postfix::from_infix(expr).and_then(|p|
p.evaluate())` that `parse_expression` of src/main.rs (lines 167-172)
prints for the line read from standard input. -/
def in_to_pos.parse_and_evaluate (s : String) : Except PostfixError ℚ :=
  (in_to_pos.Postfix.from_infix s).bind in_to_pos.Postfix.evaluate

/-! Helper lemmas about the pop loops, the lexer and trimming. -/

/-- A stack with no open parenthesis makes the strict close-paren loop
report exhaustion. -/
theorem popUntilOpen_eq_none {st : List Tokens} (h : Tokens.OpP ∉ st) :
    popUntilOpen st = none := by
  induction st with
  | nil => rfl
  | cons t rest ih =>
    simp only [List.mem_cons, not_or] at h
    cases t <;> simp_all [popUntilOpen]

/-- The strict close-paren loop only moves tokens already on the stack:
if `ClP` is not on the stack it is in neither output of the loop. -/
theorem popUntilOpen_notClP {st : List Tokens} {pr : List Tokens × List Tokens}
    (hpu : popUntilOpen st = some pr) (h : Tokens.ClP ∉ st) :
    Tokens.ClP ∉ pr.1 ∧ Tokens.ClP ∉ pr.2 := by
  induction st generalizing pr with
  | nil => simp [popUntilOpen] at hpu
  | cons t rest ih =>
    simp only [List.mem_cons, not_or] at h
    cases t
    case OpP =>
      simp only [popUntilOpen, Option.some.injEq] at hpu
      subst hpu
      exact ⟨by simp, h.2⟩
    all_goals
      simp only [popUntilOpen, Option.map_eq_some'] at hpu
      obtain ⟨pr', hrest, heq⟩ := hpu
      subst heq
      have := ih hrest h.2
      exact ⟨by simp_all, this.2⟩

/-- The operator pop loop only moves tokens already on the stack. -/
theorem popGE_notClP (op : Tokens) {st : List Tokens} (h : Tokens.ClP ∉ st) :
    Tokens.ClP ∉ (popGE op st).1 ∧ Tokens.ClP ∉ (popGE op st).2 := by
  induction st with
  | nil => simp [popGE]
  | cons t rest ih =>
    simp only [List.mem_cons, not_or] at h
    have hr := ih h.2
    by_cases hc : op.prio > t.prio
    · simp only [popGE, if_pos hc]
      exact ⟨by simp, by simp only [List.mem_cons, not_or]; exact ⟨h.1, h.2⟩⟩
    · simp only [popGE, if_neg hc]
      refine ⟨?_, hr.2⟩
      simp only [List.mem_cons, not_or]
      exact ⟨h.1, hr.1⟩

/-- The only operator character mapped to `ClP` is the close paren. -/
theorem tokOfSym_ClP {c : Char} (h : tokOfSym c = some Tokens.ClP) : c = ')' := by
  unfold tokOfSym at h
  split_ifs at h <;> simp_all

/-- Invariant of the conversion loop: a `ClP` token is never created by
any step, so an `Ok` result contains none unless the initial stack or
output did. -/
theorem convLoop_ok_notClP :
    ∀ (items : List Lexed) (stack out : List Tokens) (lin : Bool) (p : List Tokens),
      Tokens.ClP ∉ stack → Tokens.ClP ∉ out →
      convLoop items stack out lin = .ok p → Tokens.ClP ∉ p := by
  intro items
  induction items with
  | nil =>
    intro stack out lin p hs ho h
    simp only [convLoop, Except.ok.injEq] at h
    subst h
    simp only [List.mem_append, not_or]
    exact ⟨ho, hs⟩
  | cons i rest ih =>
    intro stack out lin p hs ho h
    cases i with
    | num v =>
      simp only [convLoop] at h
      refine ih _ _ _ _ hs ?_ h
      simp only [List.mem_append, List.mem_singleton, not_or]
      exact ⟨ho, by simp⟩
    | gap c =>
      simp only [convLoop] at h
      exact ih _ _ _ _ hs ho h
    | sym c =>
      simp only [convLoop] at h
      by_cases h1 : c = '('
      · rw [if_pos h1] at h
        refine ih _ _ _ _ ?_ ho h
        cases lin <;> simp_all
      · rw [if_neg h1] at h
        by_cases h2 : c = ')'
        · rw [if_pos h2] at h
          cases hpu : popUntilOpen stack with
          | none => rw [hpu] at h; exact absurd h (by simp)
          | some pr =>
            rw [hpu] at h
            have hcl := popUntilOpen_notClP hpu hs
            refine ih _ _ _ _ hcl.2 ?_ h
            simp only [List.mem_append, not_or]
            exact ⟨ho, hcl.1⟩
        · rw [if_neg h2] at h
          cases hts : tokOfSym c with
          | none => rw [hts] at h; exact absurd h (by simp)
          | some op =>
            rw [hts] at h
            have hop : Tokens.ClP ≠ op := by
              intro he
              exact h2 (tokOfSym_ClP (he ▸ hts))
            have hpg := popGE_notClP op hs
            refine ih _ _ _ _ ?_ ?_ h
            · simp only [List.mem_cons, not_or]
              exact ⟨hop, hpg.2⟩
            · simp only [List.mem_append, not_or]
              exact ⟨ho, hpg.1⟩

/-- The lax close-paren loop of the main.rs copy computes the same pair
as the strict loop whenever the strict loop finds its open paren. -/
theorem popDrain_eq_of_popUntilOpen {st : List Tokens}
    {pr : List Tokens × List Tokens} (h : popUntilOpen st = some pr) :
    in_to_pos.popDrain st = pr := by
  induction st generalizing pr with
  | nil => simp [popUntilOpen] at h
  | cons t rest ih =>
    cases t
    case OpP =>
      simp only [popUntilOpen, Option.some.injEq] at h
      subst h
      rfl
    all_goals
      simp only [popUntilOpen, Option.map_eq_some'] at h
      obtain ⟨pr', hrest, heq⟩ := h
      subst heq
      simp [in_to_pos.popDrain, ih hrest]

/-- Step agreement of the two conversion loops: whenever the strict
(exprparse.rs) loop returns `Ok`, the lax (main.rs) loop returns the
same `Ok`. -/
theorem convLoop_agree :
    ∀ (items : List Lexed) (stack out : List Tokens) (lin : Bool) (p : List Tokens),
      convLoop items stack out lin = .ok p →
      in_to_pos.convLoop items stack out lin = .ok p := by
  intro items
  induction items with
  | nil =>
    intro stack out lin p h
    simpa only [in_to_pos.convLoop] using h
  | cons i rest ih =>
    intro stack out lin p h
    cases i with
    | num v =>
      simp only [convLoop] at h
      simp only [in_to_pos.convLoop]
      exact ih _ _ _ _ h
    | gap c =>
      simp only [convLoop] at h
      simp only [in_to_pos.convLoop]
      exact ih _ _ _ _ h
    | sym c =>
      simp only [convLoop] at h
      simp only [in_to_pos.convLoop]
      by_cases h1 : c = '('
      · rw [if_pos h1] at h ⊢
        exact ih _ _ _ _ h
      · rw [if_neg h1] at h ⊢
        by_cases h2 : c = ')'
        · rw [if_pos h2] at h ⊢
          cases hpu : popUntilOpen stack with
          | none => exact absurd h (by simp [hpu])
          | some pr =>
            rw [hpu] at h
            rw [popDrain_eq_of_popUntilOpen hpu]
            exact ih _ _ _ _ h
        · rw [if_neg h2] at h ⊢
          cases hts : tokOfSym c with
          | none => exact absurd h (by simp [hts])
          | some op =>
            rw [hts] at h
            exact ih _ _ _ _ h

/-- The two evaluation loops are the same function. -/
theorem evalGo_agree : ∀ (p : List Tokens) (stack : List ℚ),
    in_to_pos.evalGo p stack = evalGo p stack := by
  intro p
  induction p with
  | nil => intro stack; cases stack <;> rfl
  | cons t rest ih =>
    intro stack
    cases t
    case Num v => simpa only [in_to_pos.evalGo, evalGo] using ih (v :: stack)
    all_goals
      rcases stack with _ | ⟨v1, _ | ⟨v2, st⟩⟩
      · rfl
      · rfl
      · simp only [in_to_pos.evalGo, evalGo]; exact ih _

/-- Agreement of the two converters on `Ok` results: the copies differ
only in the close-paren error check, so every `Ok` of the strict copy
is reproduced by the lax copy. -/
theorem from_infix_agree (s : String) (p : List Tokens)
    (h : Postfix.from_infix s = .ok p) :
    in_to_pos.Postfix.from_infix s = .ok p := by
  unfold Postfix.from_infix at h
  unfold in_to_pos.Postfix.from_infix
  split_ifs at h ⊢
  all_goals
    first
      | exact absurd h (by simp)
      | exact convLoop_agree _ _ _ _ _ h

/-- A minus sign glued to at least one digit starts a numeral match;
glued to anything else, the numeral branch fails. -/
theorem matchNum_minus_isSome (c : Char) (rest : List Char) :
    (matchNum ('-' :: c :: rest)).isSome = c.isDigit := by
  by_cases h : c.isDigit
  · simp [matchNum, List.takeWhile_cons, List.dropWhile_cons, h]
    split
    · split_ifs <;> rfl
    · rfl
  · simp only [Bool.not_eq_true] at h
    simp [matchNum, List.takeWhile_cons, h]

/-- A minus sign not glued to a digit is no numeral. -/
theorem matchNum_minus_none {c : Char} {rest : List Char}
    (h : c.isDigit = false) : matchNum ('-' :: c :: rest) = none := by
  have hs := matchNum_minus_isSome c rest
  rw [h] at hs
  cases hm : matchNum ('-' :: c :: rest) with
  | none => rfl
  | some v => rw [hm] at hs; simp at hs

/-- A minus sign not glued to a digit is lexed as the operator
character `-`. -/
theorem lex_minus_sym {c : Char} (rest : List Char) (h : c.isDigit = false) :
    lex ('-' :: c :: rest) = Lexed.sym '-' :: lex (c :: rest) := by
  simp [lex, lexF, matchNum_minus_none h, isOpChar]

/-- The operator pop loop pops exactly the maximal prefix of the stack
whose priorities are greater than or equal to the scanned operator's. -/
theorem popGE_eq_takeWhile (op : Tokens) (st : List Tokens) :
    popGE op st = (st.takeWhile (fun t => op.prio ≤ t.prio),
                   st.dropWhile (fun t => op.prio ≤ t.prio)) := by
  induction st with
  | nil => simp [popGE]
  | cons t rest ih =>
    by_cases h : op.prio > t.prio
    · have hd : decide (op.prio ≤ t.prio) = false := by
        simp only [decide_eq_false_iff_not]
        omega
      simp [popGE, if_pos h, List.takeWhile_cons, List.dropWhile_cons, hd]
    · have hd : decide (op.prio ≤ t.prio) = true := by
        simp only [decide_eq_true_eq]
        omega
      simp [popGE, if_neg h, List.takeWhile_cons, List.dropWhile_cons, hd, ih]

/-! The claims. -/

/-- C1 (corrected, counterexample): on the input `"(2 + 3"` the full
pipeline does not return the value 5 — it returns `ParseError`. -/
theorem c1_counterexample :
    parse_and_evaluate "(2 + 3" = .error .ParseError ∧
      parse_and_evaluate "(2 + 3" ≠ .ok 5 := by
  constructor
  · with_unfolding_all rfl
  · intro h
    rw [show parse_and_evaluate "(2 + 3" = .error .ParseError from
      by with_unfolding_all rfl] at h
    exact absurd h (by simp)

/-- C1 (amended): for `"(2 + 3"` the conversion itself succeeds and the
unmatched open parenthesis is silently drained into the postfix output
`[2][3]+(`; but the drained `OpP` token then underflows the value stack
during evaluation, so the convert-then-evaluate pipeline returns
`ParseError`, not the value 5. -/
theorem c1_amended :
    Postfix.from_infix "(2 + 3" =
        .ok [Tokens.Num 2, Tokens.Num 3, Tokens.Add, Tokens.OpP] ∧
      parse_and_evaluate "(2 + 3" = .error .ParseError := by
  constructor
  · with_unfolding_all rfl
  · with_unfolding_all rfl

/-- C2 (corrected, counterexample): an `Ok` postfix sequence can contain
the structural token `OpP`: `"(2 + 3"` converts successfully to
`[2][3]+(`, which contains `OpP`. -/
theorem c2_counterexample :
    Postfix.from_infix "(2 + 3" =
        .ok [Tokens.Num 2, Tokens.Num 3, Tokens.Add, Tokens.OpP] ∧
      Tokens.OpP ∈ [Tokens.Num 2, Tokens.Num 3, Tokens.Add, Tokens.OpP] := by
  constructor
  · with_unfolding_all rfl
  · simp

/-- C2 (amended): an `Ok` postfix sequence never contains a `CloseParen`
token, but it can contain an `OpenParen` token (unmatched open
parentheses are drained into the output at end of scan). -/
theorem c2_amended (s : String) (p : List Tokens)
    (h : Postfix.from_infix s = .ok p) : Tokens.ClP ∉ p := by
  unfold Postfix.from_infix at h
  split_ifs at h
  exact convLoop_ok_notClP _ _ _ _ _ (by simp) (by simp) h

/-- C2 witness: the conversion of `"2 + 3"` contains no `ClP`. -/
theorem c2_witness : Tokens.ClP ∉ [Tokens.Num 2, Tokens.Num 3, Tokens.Add] :=
  c2_amended "2 + 3" [Tokens.Num 2, Tokens.Num 3, Tokens.Add]
    (by with_unfolding_all rfl)

/-- C3 (confirmed): when a close paren is processed and the operator
stack holds no `OpP`, the conversion loop fails with `ParseError`; in
particular `"2 + 3)"` fails with `ParseError`. -/
theorem c3 :
    (∀ (rest : List Lexed) (stack out : List Tokens) (lin : Bool),
        Tokens.OpP ∉ stack →
        convLoop (Lexed.sym ')' :: rest) stack out lin = .error .ParseError) ∧
      Postfix.from_infix "2 + 3)" = .error .ParseError := by
  constructor
  · intro rest stack out lin h
    simp [convLoop, popUntilOpen_eq_none h]
  · with_unfolding_all rfl

/-- C3 witness: a close paren over the `OpP`-free stack `[Add]`. -/
theorem c3_witness :
    convLoop [Lexed.sym ')'] [Tokens.Add] [] false = .error .ParseError :=
  c3.1 [] [Tokens.Add] [] false (by decide)

/-- C4 (corrected, counterexample): deleting the whitespace around a
minus sign changes the lexing — in `"5-2"` the leftmost-first regex
prefers the numeral branch and lexes `-2` as a negative literal — so
`"5 - 2"` evaluates to 3 while `"5-2"` evaluates to -2 (the postfix is
`[5][-2]`, whose evaluation returns the top value `-2` and silently
discards the leftover 5). -/
theorem c4_counterexample :
    parse_and_evaluate "5 - 2" = .ok 3 ∧
      parse_and_evaluate "5-2" = .ok (-2) := by
  constructor
  · with_unfolding_all rfl
  · with_unfolding_all rfl

/-- C4 (amended): the pipeline's result depends only on what the scan
produces — the emptiness of the trimmed input, the whiteness of the gap
text, and the match sequence.  Two inputs that agree on those three
(in particular, inputs whose whitespace differences do not change the
lexing) evaluate equally.  Whitespace CAN change the lexing: a minus
sign directly before digits becomes the sign of a numeric literal. -/
theorem c4_amended (s₁ s₂ : String)
    (h₁ : (rustTrim s₁.toList).isEmpty = false)
    (h₂ : (rustTrim s₂.toList).isEmpty = false)
    (g₁ : hasBadGap (lex s₁.toList) = false)
    (g₂ : hasBadGap (lex s₂.toList) = false)
    (m : lexTokens s₁ = lexTokens s₂) :
    parse_and_evaluate s₁ = parse_and_evaluate s₂ := by
  have h₁' : rustTrim s₁.data ≠ [] := by simpa [String.toList] using h₁
  have h₂' : rustTrim s₂.data ≠ [] := by simpa [String.toList] using h₂
  have g₁' : hasBadGap (lex s₁.data) = false := by simpa [String.toList] using g₁
  have g₂' : hasBadGap (lex s₂.data) = false := by simpa [String.toList] using g₂
  simp [parse_and_evaluate, Postfix.from_infix, h₁', h₂', g₁', g₂', m]

/-- C4 witness: `"2 + 3"` and `"2+3"` lex to the same matches and
evaluate equally. -/
theorem c4_witness : parse_and_evaluate "2 + 3" = parse_and_evaluate "2+3" :=
  c4_amended "2 + 3" "2+3" (by with_unfolding_all rfl)
    (by with_unfolding_all rfl) (by with_unfolding_all rfl)
    (by with_unfolding_all rfl) (by with_unfolding_all rfl)

/-- C5 (corrected, counterexample): the two copies are not equivalent —
on the unmatched-close input `"2 + 3)"` the exprparse.rs pipeline fails
with `ParseError` while the in_to_pos copy of main.rs silently drains
the operator stack and returns the value 5. -/
theorem c5_counterexample :
    parse_and_evaluate "2 + 3)" = .error .ParseError ∧
      in_to_pos.parse_and_evaluate "2 + 3)" = .ok 5 := by
  constructor
  · with_unfolding_all rfl
  · with_unfolding_all rfl

/-- C5 (amended): the copies agree whenever the exprparse.rs converter
succeeds: every `Ok` conversion is reproduced verbatim by the in_to_pos
copy, the two evaluators are the same function, and the two pipelines
agree on every input the exprparse.rs converter accepts.  They differ
only where a close paren exhausts the operator stack, which exprparse.rs
rejects and in_to_pos silently absorbs. -/
theorem c5_amended :
    (∀ (s : String) (p : List Tokens),
        Postfix.from_infix s = .ok p → in_to_pos.Postfix.from_infix s = .ok p) ∧
      (∀ p : List Tokens, in_to_pos.Postfix.evaluate p = Postfix.evaluate p) ∧
      (∀ (s : String) (p : List Tokens), Postfix.from_infix s = .ok p →
        in_to_pos.parse_and_evaluate s = parse_and_evaluate s) := by
  refine ⟨from_infix_agree, fun p => evalGo_agree p [], ?_⟩
  intro s p h
  unfold in_to_pos.parse_and_evaluate parse_and_evaluate
  rw [h, from_infix_agree s p h]
  simp only [Except.bind]
  exact evalGo_agree p []

/-- C5 witness: both converters return `[2][3]+` on `"2 + 3"`. -/
theorem c5_witness :
    in_to_pos.Postfix.from_infix "2 + 3" =
      .ok [Tokens.Num 2, Tokens.Num 3, Tokens.Add] :=
  c5_amended.1 "2 + 3" [Tokens.Num 2, Tokens.Num 3, Tokens.Add]
    (by with_unfolding_all rfl)

/-- C6 (confirmed): the operator step pops operators while the
top-of-stack priority is greater than or equal to the scanned
operator's (the pop loop computes exactly the maximal such prefix), so
every operator, `^` included, is left-associative at equal precedence;
in particular `"2 ^ 3 ^ 2"` converts to `[2][3]^[2]^` and evaluates to
64, not 512. -/
theorem c6 :
    (∀ (op : Tokens) (st : List Tokens),
        popGE op st = (st.takeWhile (fun t => op.prio ≤ t.prio),
                       st.dropWhile (fun t => op.prio ≤ t.prio))) ∧
      Postfix.from_infix "2 ^ 3 ^ 2" =
        .ok [Tokens.Num 2, Tokens.Num 3, Tokens.Exp, Tokens.Num 2, Tokens.Exp] ∧
      parse_and_evaluate "2 ^ 3 ^ 2" = .ok 64 ∧
      parse_and_evaluate "2 ^ 3 ^ 2" ≠ .ok 512 := by
  refine ⟨popGE_eq_takeWhile, by with_unfolding_all rfl, by with_unfolding_all rfl, ?_⟩
  intro h
  rw [show parse_and_evaluate "2 ^ 3 ^ 2" = .ok 64 from by with_unfolding_all rfl] at h
  simp only [Except.ok.injEq] at h
  exact absurd h (by norm_num)

/-- C7 (confirmed): a minus sign is lexed as the sign of a numeric
literal exactly when it is glued to a following digit (`matchNum`
succeeds on `'-' :: c :: _` iff `c` is a digit, and a lone or non-glued
minus lexes as the `-` operator symbol); in particular `"-3^2"` lexes
`-3` as one negative literal, converts to `[-3][2]^` and evaluates to
9. -/
theorem c7 :
    (∀ (c : Char) (rest : List Char),
        (matchNum ('-' :: c :: rest)).isSome = c.isDigit) ∧
      matchNum ['-'] = none ∧
      (∀ (c : Char) (rest : List Char), c.isDigit = false →
        lex ('-' :: c :: rest) = Lexed.sym '-' :: lex (c :: rest)) ∧
      Postfix.from_infix "-3^2" =
        .ok [Tokens.Num (-3), Tokens.Num 2, Tokens.Exp] ∧
      parse_and_evaluate "-3^2" = .ok 9 :=
  ⟨matchNum_minus_isSome, by with_unfolding_all rfl,
    fun _ rest h => lex_minus_sym rest h,
    by with_unfolding_all rfl, by with_unfolding_all rfl⟩

/-- C7 witness: a minus glued to the non-digit `a` lexes as the `-`
operator symbol. -/
theorem c7_witness : lex ['-', 'a'] = Lexed.sym '-' :: lex ['a'] :=
  c7.2.2.1 'a' [] (by decide)

/-- C8 (confirmed): a `Mul` is synthesized below the pushed `OpP`
exactly when the preceding token was a number (`lastIsNum = true`); a
number token itself inserts nothing.  In particular `"2(3 + 4)"`
converts to `[2][3][4]+*` and evaluates to 14, while `")("` adjacency
(`"(3)(4)"`) and two adjacent numbers (`"2 3"`) get no inserted
operator. -/
theorem c8 :
    (∀ (rest : List Lexed) (stack out : List Tokens),
        convLoop (Lexed.sym '(' :: rest) stack out true =
          convLoop rest (Tokens.OpP :: Tokens.Mul :: stack) out false) ∧
      (∀ (rest : List Lexed) (stack out : List Tokens),
        convLoop (Lexed.sym '(' :: rest) stack out false =
          convLoop rest (Tokens.OpP :: stack) out false) ∧
      (∀ (v : ℚ) (rest : List Lexed) (stack out : List Tokens) (b : Bool),
        convLoop (Lexed.num v :: rest) stack out b =
          convLoop rest stack (out ++ [Tokens.Num v]) true) ∧
      Postfix.from_infix "2(3 + 4)" =
        .ok [Tokens.Num 2, Tokens.Num 3, Tokens.Num 4, Tokens.Add, Tokens.Mul] ∧
      parse_and_evaluate "2(3 + 4)" = .ok 14 ∧
      Postfix.from_infix "(3)(4)" = .ok [Tokens.Num 3, Tokens.Num 4] ∧
      Postfix.from_infix "2 3" = .ok [Tokens.Num 2, Tokens.Num 3] :=
  ⟨fun _ _ _ => rfl, fun _ _ _ => rfl, fun _ _ _ _ _ => rfl,
    by with_unfolding_all rfl, by with_unfolding_all rfl,
    by with_unfolding_all rfl, by with_unfolding_all rfl⟩

/-- C9 (confirmed): each binary operator pops `val1` (the rhs) first,
then `val2` (the lhs), pushes `val2 OP val1` (so `"5 - 3"` gives 2, not
-2), and a pop from a stack with fewer than two values fails with
`ParseError` (so the trailing-operator input `"2 +"` fails). -/
theorem c9 :
    (∀ (rest : List Tokens) (v1 v2 : ℚ) (st : List ℚ),
        evalGo (Tokens.Add :: rest) (v1 :: v2 :: st) = evalGo rest ((v2 + v1) :: st)) ∧
      (∀ (rest : List Tokens) (v1 v2 : ℚ) (st : List ℚ),
        evalGo (Tokens.Sub :: rest) (v1 :: v2 :: st) = evalGo rest ((v2 - v1) :: st)) ∧
      (∀ (rest : List Tokens) (v1 v2 : ℚ) (st : List ℚ),
        evalGo (Tokens.Mul :: rest) (v1 :: v2 :: st) = evalGo rest ((v2 * v1) :: st)) ∧
      (∀ (rest : List Tokens) (v1 v2 : ℚ) (st : List ℚ),
        evalGo (Tokens.Div :: rest) (v1 :: v2 :: st) = evalGo rest ((v2 / v1) :: st)) ∧
      (∀ (rest : List Tokens) (v1 v2 : ℚ) (st : List ℚ),
        evalGo (Tokens.Exp :: rest) (v1 :: v2 :: st) = evalGo rest (qpow v2 v1 :: st)) ∧
      (∀ (t : Tokens) (rest : List Tokens), t.isNum = false →
        evalGo (t :: rest) [] = .error .ParseError) ∧
      (∀ (t : Tokens) (rest : List Tokens) (v : ℚ), t.isNum = false →
        evalGo (t :: rest) [v] = .error .ParseError) ∧
      parse_and_evaluate "5 - 3" = .ok 2 ∧
      parse_and_evaluate "2 +" = .error .ParseError := by
  refine ⟨fun _ _ _ _ => rfl, fun _ _ _ _ => rfl, fun _ _ _ _ => rfl,
    fun _ _ _ _ => rfl, fun _ _ _ _ => rfl, ?_, ?_,
    by with_unfolding_all rfl, by with_unfolding_all rfl⟩
  · intro t rest h
    cases t <;> first | rfl | simp [Tokens.isNum] at h
  · intro t rest v h
    cases t <;> first | rfl | simp [Tokens.isNum] at h

/-- C9 witness: an operator over the empty value stack underflows. -/
theorem c9_witness : evalGo [Tokens.Add] [] = .error .ParseError :=
  c9.2.2.2.2.2.1 Tokens.Add [] rfl

/-- C10 (confirmed): an input that is empty or consists only of
whitespace makes `from_infix` return the `EmptyString` error. -/
theorem c10 (s : String) (h : s.toList.all isRustWS = true) :
    Postfix.from_infix s = .error .EmptyString := by
  have hd : s.toList.dropWhile isRustWS = [] := by
    rw [List.dropWhile_eq_nil_iff]
    intro x hx
    exact List.all_eq_true.mp h x hx
  have ht : rustTrim s.toList = [] := by
    unfold rustTrim
    rw [hd]
    rfl
  unfold Postfix.from_infix
  rw [ht]
  rfl

/-- C10 witness: the all-whitespace input `" "` yields `EmptyString`. -/
theorem c10_witness : Postfix.from_infix " " = .error .EmptyString :=
  c10 " " (by with_unfolding_all rfl)
